import Mathlib

/-!
Verification development for the watcher core of tddflow
(src/tddflow/_internal/watcher.py).

The embedding models Python strings as `List Char` where character-level
reasoning is needed (the dispatcher output, the static-mapping argument),
paths as lists of components (`List String`, mirroring pathlib behaviour on
POSIX), and the filesystem as a finite list of entries (path, is-directory)
together with an mtime function and a parsed-content function.  Iteration
order of `frozenset`s is immaterial for every property stated here, so sets
are modelled as lists and properties are stated via membership.
-/

/-- Python newline character. -/
def nlChar : Char := Char.ofNat 10

/-- Opening curly brace character (written via its code point). -/
def lbraceC : Char := Char.ofNat 123

/-- Closing curly brace character. -/
def rbraceC : Char := Char.ofNat 125

/-- Opening square bracket character. -/
def lbrackC : Char := Char.ofNat 91

/-- Closing square bracket character. -/
def rbrackC : Char := Char.ofNat 93

/-- Double-quote character. -/
def quoteC : Char := Char.ofNat 34

/-- Backslash character. -/
def backslashC : Char := Char.ofNat 92

/-- Apostrophe character. -/
def apostC : Char := Char.ofNat 39

/-- Comma character. -/
def commaC : Char := Char.ofNat 44

/-- Colon character. -/
def colonC : Char := Char.ofNat 58

/-- Space character. -/
def spaceC : Char := Char.ofNat 32

/-- Python `str.split(sep)` for a single-character separator `sep`,
on strings modelled as `List Char`. -/
def splitOnChar (sep : Char) : List Char → List (List Char)
  | [] => [[]]
  | c :: rest =>
    if c = sep then [] :: splitOnChar sep rest
    else
      match splitOnChar sep rest with
      | [] => [[c]]
      | p :: ps => (c :: p) :: ps

/-- Python `sep.join(pieces)` on strings modelled as `List Char`. -/
def pyJoin (sep : List Char) : List (List Char) → List Char
  | [] => []
  | [p] => p
  | p :: q :: ps => p ++ sep ++ pyJoin sep (q :: ps)

/-- Python `stdout.split(chr(10) + chr(123))`: split on the two-character
sentinel newline-brace, scanning left to right over non-overlapping
occurrences, exactly as `Dir.run_test_module` does. -/
def splitNLBrace : List Char → List (List Char)
  | [] => [[]]
  | [c] => [[c]]
  | c :: d :: rest =>
    if c = nlChar ∧ d = lbraceC then [] :: splitNLBrace rest
    else
      match splitNLBrace (d :: rest) with
      | [] => [[c]]
      | p :: ps => (c :: p) :: ps

/-- Python whitespace characters recognised by `str.strip` (ASCII part). -/
def isPySpace (c : Char) : Bool :=
  c = spaceC ∨ c = Char.ofNat 9 ∨ c = nlChar ∨ c = Char.ofNat 13 ∨
  c = Char.ofNat 11 ∨ c = Char.ofNat 12

/-- Python `str.strip()` on `List Char`. -/
def pyStrip (s : List Char) : List Char :=
  ((s.dropWhile isPySpace).reverse.dropWhile isPySpace).reverse

/-- Python `str.removeprefix`. -/
def removePref (pre s : List Char) : List Char :=
  if pre.isPrefixOf s then s.drop pre.length else s

/-- Python `s.split(arrow, maxsplit one)` restricted to presence detection:
returns the pieces before and after the first occurrence of the two-character
arrow `->`, or `none` when the arrow does not occur (`Dir.map` returns
immediately in that case). -/
def splitArrow : List Char → Option (List Char × List Char)
  | [] => none
  | [_] => none
  | c :: d :: rest =>
    if c = '-' ∧ d = '>' then some ([], rest)
    else
      match splitArrow (d :: rest) with
      | none => none
      | some (a, b) => some (c :: a, b)

/-- Python `str.startswith`, via character lists (the string primitives of
the host are replaced by their character-list models throughout, so that
every definition evaluates by reduction). -/
def strStartsWith (s pre : String) : Bool := pre.toList.isPrefixOf s.toList

/-- Python `str.endswith`, via character lists. -/
def strEndsWith (s suf : String) : Bool := suf.toList.isSuffixOf s.toList

/-- Python `str.split` on the dot, for dotted module names. -/
def dottedParts (m : String) : List String :=
  (splitOnChar '.' m.toList).map (fun l => String.mk l)

/-- A filesystem path, as its list of components (pathlib POSIX semantics:
`Path.parent` drops the last component, `Path.name` is the last component,
`joinpath` appends components). -/
abbrev FsPath := List String

/-- Model of `pathlib.Path(s)` for a relative string `s`: split on the separator. -/
def parseRelPath (cs : List Char) : FsPath :=
  (splitOnChar '/' cs).map (fun l => String.mk l)

/-- Model of `str(p)` for a path: components joined by the separator. -/
def pathStrChars (p : FsPath) : List Char :=
  pyJoin ['/'] (p.map String.toList)

/-- Model of `Path.name`: the last component (empty for the empty path). -/
def lastName (p : FsPath) : String := p.getLast?.getD ("")

/-- A directory listing entry: full path and whether it is a directory. -/
abbrev FsEntry := FsPath × Bool

/-- Model of `Path.iterdir()` for directory `d`: all entries whose parent is `d`. -/
def childrenOf (entries : List FsEntry) (d : FsPath) : List FsPath :=
  entries.filterMap (fun e => if e.1 ≠ [] ∧ e.1.dropLast = d then some e.1 else none)

/-- Model of `Path.is_dir()`. -/
def isDirEntry (entries : List FsEntry) (p : FsPath) : Bool :=
  entries.any (fun e => e.1 == p && e.2)

/-- Model of `Path.exists()`. -/
def existsEntry (entries : List FsEntry) (p : FsPath) : Bool :=
  entries.any (fun e => e.1 == p)

/-- Model of `Dir.is_package`: the directory has a non-directory child named
`__init__.py`. -/
def isPackage (entries : List FsEntry) (d : FsPath) : Bool :=
  (childrenOf entries d).any (fun f => !isDirEntry entries f && lastName f == "__init__.py")

/-- Model of `Dir.root_package`: climb to the parent while the parent is a package.
The watched directory is absolute and nonempty; the degenerate behaviour of
the source at the filesystem root (where `parent` is a fixpoint) is excluded
by the hypotheses of the theorems below. -/
def rootPkgClimb (entries : List FsEntry) : Nat → FsPath → FsPath
  | 0, d => d
  | fuel + 1, d =>
    if d = [] then []
    else if isPackage entries d.dropLast then rootPkgClimb entries fuel d.dropLast
    else d

/-- Model of `Dir.root_package` proper: the climb needs at most one step per
component. -/
def rootPackage (entries : List FsEntry) (d : FsPath) : FsPath :=
  rootPkgClimb entries d.length d

/-- Model of `Dir.is_test_module`: the basename has a `test_` start or a `_test.py`
ending and is not ignored. -/
def isTestModule (ignM : List String) (p : FsPath) : Bool :=
  (strStartsWith (lastName p) "test_" || strEndsWith (lastName p) "_test.py") &&
  !(ignM.contains (lastName p))

/-- Model of `Dir.is_production`: a non-directory `.py` file, not ignored, not a test
module. -/
def isProduction (entries : List FsEntry) (ignM : List String) (p : FsPath) : Bool :=
  !isDirEntry entries p && strEndsWith (lastName p) ".py" &&
  !(ignM.contains (lastName p)) && !(isTestModule ignM p)

/-- Longest path length among the entries; used to bound the descent of
`sub_packages` (a child is one component longer than its parent, so no
package chain is longer than this bound). -/
def maxEntryLen (entries : List FsEntry) : Nat :=
  entries.foldr (fun e a => max e.1.length a) 0

/-- Recursive worker for `Dir.sub_packages`: yield the directory itself and
descend into child directories that are non-ignored packages.  The source
uses an explicit stack; the order of the produced list differs but its
membership is identical, and every property stated below is membership
level. -/
def subPkgsAux (entries : List FsEntry) (ignP : List String) : Nat → FsPath → List FsPath
  | 0, d => [d]
  | fuel + 1, d =>
    d :: ((childrenOf entries d).filter
      (fun c => isDirEntry entries c && !(ignP.contains (lastName c)) && isPackage entries c)).flatMap
      (fun c => subPkgsAux entries ignP fuel c)

/-- Model of `Dir.sub_packages`, with enough fuel that no chain is ever truncated. -/
def subPackages (entries : List FsEntry) (ignP : List String) (dir : FsPath) : List FsPath :=
  subPkgsAux entries ignP (maxEntryLen entries + 1) dir

/-- Model of `Dir.test_modules`, as the list of wrapped paths. -/
def testModulePaths (entries : List FsEntry) (ignP ignM : List String) (dir : FsPath) : List FsPath :=
  (subPackages entries ignP dir).flatMap
    (fun pk => (childrenOf entries pk).filter
      (fun p => !isDirEntry entries p && isTestModule ignM p))

/-- Model of `Dir.production_modules`: production files of every sub-package, plus the
files directly under the root package when it differs from the watched
directory. -/
def productionModulePaths (entries : List FsEntry) (ignP ignM : List String) (dir : FsPath) : List FsPath :=
  ((subPackages entries ignP dir).flatMap
    (fun pk => (childrenOf entries pk).filter (fun p => isProduction entries ignM p))) ++
  (if rootPackage entries dir ≠ dir then
    (childrenOf entries (rootPackage entries dir)).filter (fun p => isProduction entries ignM p)
  else [])

/-- A top-level statement of a parsed module, at the abstraction level the
source works on (`ast.iter_child_nodes` of the parsed file): a from-import
with optional module and imported names, a plain import with dotted names,
or any other statement.  Aliases are irrelevant: the source reads only
`name.name`. -/
inductive PyStmt where
  | importFrom (module : Option String) (names : List String)
  | importPlain (names : List String)
  | other
deriving DecidableEq

/-- Translate a dotted module string to a relative `.py` path
(`module.replace(dot, sep) + ".py"` in the source). -/
def dotted2rel (m : String) : FsPath :=
  let parts := dottedParts m
  parts.dropLast ++ [(parts.getLast?.getD ("")) ++ ".py"]

/-- Model of `TM._import_to_module`: try the dotted path below the parent of the root
package, then below the parent directory of `mod` (defaulting to the test
module itself). -/
def importToModule (entries : List FsEntry) (root selfP : FsPath)
    (ms : String) (mod : Option FsPath) : Option FsPath :=
  let rel := dotted2rel ms
  let abs1 := root.dropLast ++ rel
  if existsEntry entries abs1 then some abs1
  else
    let abs2 := (mod.getD selfP).dropLast ++ rel
    if existsEntry entries abs2 then some abs2 else none

/-- Model of `TM._is_package_import`: the tail segment equals the root-package name,
or the dotted path joined below the parent of the root package is one of the
sub-packages.  The final fallback of the source compares `Path` objects with
`Pkg` objects, which is always false in Python, and is modelled as false. -/
def isPackageImport (entries : List FsEntry) (ignP : List String)
    (root dir : FsPath) (pkg : String) : Bool :=
  let rel := dottedParts pkg
  if (rel.getLast?.getD ("")) == lastName root then true
  else (subPackages entries ignP dir).contains (root.dropLast ++ rel)

/-- One scan of an aggregator module body by `TM._resolve_from_import`,
parameterised by the continuation `resolve` used for the nested resolution
(the recursive call at one smaller fuel).  The control flow mirrors the
source statement by statement. -/
def rfiScan (entries : List FsEntry) (ignP : List String) (root dir selfP : FsPath)
    (resolve : FsPath → Option (Option FsPath × Bool)) (m : FsPath) (imp : String) :
    List PyStmt → Option (Option FsPath × Bool)
  | [] => some (none, false)
  | stmt :: rest =>
    match stmt with
    | .other => rfiScan entries ignP root dir selfP resolve m imp rest
    | .importFrom none _ => rfiScan entries ignP root dir selfP resolve m imp rest
    | .importFrom (some ms) names =>
      match importToModule entries root selfP ms none with
      | some dep =>
        if names.contains imp then resolve dep
        else rfiScan entries ignP root dir selfP resolve m imp rest
      | none =>
        if isPackageImport entries ignP root dir ms then
          if names.contains imp then
            match importToModule entries root selfP (ms ++ "." ++ imp) none with
            | some d => some (some d, true)
            | none => some (none, false)
          else rfiScan entries ignP root dir selfP resolve m imp rest
        else rfiScan entries ignP root dir selfP resolve m imp rest
    | .importPlain names =>
      if names.contains imp then
        match importToModule entries root selfP imp (some m) with
        | some d => some (some d, true)
        | none => rfiScan entries ignP root dir selfP resolve m imp rest
      else rfiScan entries ignP root dir selfP resolve m imp rest

/-- Model of `TM._resolve_from_import`.  The source recurses without any bound and
diverges on cyclic re-export chains; the embedding makes the call stack
explicit as `fuel`, and `none` marks a resolution whose recursion depth
exceeds the fuel (for every fuel, in the cyclic case). -/
def resolveFromImport (entries : List FsEntry) (content : FsPath → List PyStmt)
    (ignP : List String) (root dir selfP : FsPath) :
    Nat → Option FsPath → String → Option (Option FsPath × Bool)
  | _, none, _ => some (none, false)
  | 0, some _, _ => none
  | fuel + 1, some m, imp =>
    rfiScan entries ignP root dir selfP
      (fun dep => resolveFromImport entries content ignP root dir selfP fuel (some dep) imp)
      m imp (content m)

/-- The module on which a scan of `m` recurses for name `imp`, if any:
`none` means the scan returns without a nested resolution.  This mirrors the
control flow of `rfiScan` exactly and is the basis of the termination
analysis. -/
def rfiNextAux (entries : List FsEntry) (ignP : List String) (root dir selfP : FsPath)
    (m : FsPath) (imp : String) : List PyStmt → Option FsPath
  | [] => none
  | stmt :: rest =>
    match stmt with
    | .other => rfiNextAux entries ignP root dir selfP m imp rest
    | .importFrom none _ => rfiNextAux entries ignP root dir selfP m imp rest
    | .importFrom (some ms) names =>
      match importToModule entries root selfP ms none with
      | some dep =>
        if names.contains imp then some dep
        else rfiNextAux entries ignP root dir selfP m imp rest
      | none =>
        if isPackageImport entries ignP root dir ms then
          if names.contains imp then none
          else rfiNextAux entries ignP root dir selfP m imp rest
        else rfiNextAux entries ignP root dir selfP m imp rest
    | .importPlain names =>
      if names.contains imp then
        match importToModule entries root selfP imp (some m) with
        | some _ => none
        | none => rfiNextAux entries ignP root dir selfP m imp rest
      else rfiNextAux entries ignP root dir selfP m imp rest

/-- The resolution-step relation of `_resolve_from_import` starting at
module `m` for name `imp`. -/
def rfiNext (entries : List FsEntry) (content : FsPath → List PyStmt)
    (ignP : List String) (root dir selfP : FsPath) (m : FsPath) (imp : String) :
    Option FsPath :=
  rfiNextAux entries ignP root dir selfP m imp (content m)

/-- Termination of `_resolve_from_import` at a module and name: some
recursion depth suffices. -/
def rfiTerminates (entries : List FsEntry) (content : FsPath → List PyStmt)
    (ignP : List String) (root dir selfP : FsPath) (m : FsPath) (imp : String) : Prop :=
  ∃ fuel, (resolveFromImport entries content ignP root dir selfP fuel (some m) imp).isSome

/-- Whether the re-export search for `imp` starting at aggregator `dep`
reports the name as found. -/
def rfiFoundB (entries : List FsEntry) (content : FsPath → List PyStmt)
    (ignP : List String) (root dir selfP : FsPath) (fuel : Nat) (dep : FsPath)
    (imp : String) : Bool :=
  match resolveFromImport entries content ignP root dir selfP fuel (some dep) imp with
  | some (_, true) => true
  | _ => false

/-- The paths yielded for one from-import statement whose module resolved to
the aggregator file `dep`: per imported name, the resolved re-export target
when the search finds the name, else the aggregator itself.  `none`
propagates fuel exhaustion of the nested resolution. -/
def pdFromImportDep (entries : List FsEntry) (content : FsPath → List PyStmt)
    (ignP : List String) (root dir selfP : FsPath) (fuel : Nat) (dep : FsPath) :
    List String → Option (List FsPath)
  | [] => some []
  | n :: ns =>
    match resolveFromImport entries content ignP root dir selfP fuel (some dep) n with
    | none => none
    | some (d?, found) =>
      match pdFromImportDep entries content ignP root dir selfP fuel dep ns with
      | none => none
      | some l => if found then some (d?.toList ++ l) else some (dep :: l)

/-- The paths yielded by `TM.production_dependencies` for one top-level
statement. -/
def pdStmt (entries : List FsEntry) (content : FsPath → List PyStmt)
    (ignP : List String) (root dir selfP : FsPath) (fuel : Nat) :
    PyStmt → Option (List FsPath)
  | .other => some []
  | .importFrom none _ => some []
  | .importFrom (some ms) names =>
    match importToModule entries root selfP ms none with
    | some dep => pdFromImportDep entries content ignP root dir selfP fuel dep names
    | none =>
      if isPackageImport entries ignP root dir ms then
        some (names.filterMap (fun n => importToModule entries root selfP (ms ++ "." ++ n) none))
      else some []
  | .importPlain names =>
    some (names.filterMap (fun n => importToModule entries root selfP n none))

/-- Model of `TM.production_dependencies`: the concatenation, in statement order, of
the per-statement yields.  Parse failure of the test module itself (which
makes the source yield nothing) is not modelled: every content is already
parsed.  `none` again marks fuel exhaustion of some nested resolution. -/
def productionDependencies (entries : List FsEntry) (content : FsPath → List PyStmt)
    (ignP : List String) (root dir selfP : FsPath) (fuel : Nat) :
    Option (List FsPath) :=
  (content selfP).foldr
    (fun st acc =>
      match pdStmt entries content ignP root dir selfP fuel st, acc with
      | some a, some b => some (a ++ b)
      | _, _ => none)
    (some [])

/-- A key of the `Dir.static_maps` dictionary.  `Dir.map` stores the
production side as a `Path` when it exists below the root package and as the
raw `str` otherwise; in Python a `str` key never equals a `Path`, which the
two constructors keep apart. -/
inductive MapKey where
  | path (p : FsPath)
  | str (s : String)
deriving DecidableEq

/-- Append a value to the list stored under a key, creating the binding when
absent (`static_maps[p].append` with its `KeyError` fallback). -/
def assocAppend (sm : List (MapKey × List FsPath)) (k : MapKey) (v : FsPath) :
    List (MapKey × List FsPath) :=
  if sm.any (fun kv => kv.1 == k) then
    sm.map (fun kv => if kv.1 == k then (kv.1, kv.2 ++ [v]) else kv)
  else sm ++ [(k, [v])]

/-- Model of `Dir.map`: ignore strings without an arrow; split at the first arrow;
resolve each side below the root package when that joined path exists, else
keep it verbatim (the production side then remains a raw string key, the
test side is parsed into a path value); append to the static mappings. -/
def mapRegister (entries : List FsEntry) (root : FsPath)
    (sm : List (MapKey × List FsPath)) (s : List Char) :
    List (MapKey × List FsPath) :=
  match splitArrow s with
  | none => sm
  | some (pcs, tcs) =>
    let pKey :=
      if existsEntry entries (root ++ parseRelPath pcs) then
        MapKey.path (root ++ parseRelPath pcs)
      else MapKey.str (String.mk pcs)
    let tVal :=
      if existsEntry entries (root ++ parseRelPath tcs) then root ++ parseRelPath tcs
      else parseRelPath tcs
    assocAppend sm pKey tVal

/-- The static-mapping values stored under key `k`. -/
def staticFor (sm : List (MapKey × List FsPath)) (k : MapKey) : List FsPath :=
  (sm.filter (fun kv => kv.1 == k)).flatMap (fun kv => kv.2)

/-- A `Snapshot`: test modules, production modules, the dependency pairs
produced by the dependency generator over the test set, the static mappings
at capture time, and the mtime map keyed by path (`as_posix` keys are in
bijection with component lists). -/
structure Snapshot where
  tt : List FsPath
  pp : List FsPath
  deps : List (FsPath × List FsPath)
  staticMaps : List (MapKey × List FsPath)
  mt : List (FsPath × Nat)

/-- Snapshot construction: both dependency generators of the source
(`TM.dependencies` and `parallel_dep_gen`) pair every test path with its
dependency list, modelled by the generator function `depsOf`; the mtime map
records `stat().st_mtime_ns` of every test and production path. -/
def mkSnapshot (mtf : FsPath → Nat) (tt pp : List FsPath)
    (depsOf : FsPath → List FsPath) (sm : List (MapKey × List FsPath)) : Snapshot :=
  { tt := tt
    pp := pp
    deps := tt.map (fun t => (t, depsOf t))
    staticMaps := sm
    mt := (tt ++ pp).map (fun q => (q, mtf q)) }

/-- Lookup in the mtime map. -/
def mtFind (mt : List (FsPath × Nat)) (p : FsPath) : Option Nat :=
  (mt.find? (fun e => e.1 == p)).map (fun e => e.2)

/-- Model of `Snapshot.production_to_test` as the pure value of the lazily built
reverse index: the test paths of every dependency pair containing `prd`,
together with the static-mapping values under the `Path` key `prd` when
`prd` is in the production set (a raw-string key never matches the
`d not in self.pp` test against a set of `Path`s). -/
def productionToTest (s : Snapshot) (prd : FsPath) : List FsPath :=
  ((s.deps.filter (fun td => prd ∈ td.2)).map (fun td => td.1)) ++
  (if prd ∈ s.pp then staticFor s.staticMaps (MapKey.path prd) else [])

/-- An `Analysis`: modified test modules, and modified production modules
with their dependent tests. -/
structure Analysis where
  mod_tt : List FsPath
  mod_pp : List (FsPath × List FsPath)

/-- Model of `Analysis.tt`: the to-run set, the union of the modified tests and of
all dependent-test sets (stated via list membership). -/
def Analysis.toRun (a : Analysis) : List FsPath :=
  a.mod_tt ++ a.mod_pp.flatMap (fun pe => pe.2)

/-- Is the path modified relative to the previous snapshot: absent from its
mtime map, or the current stat is strictly newer at nanosecond resolution. -/
def isModified (prevMt : List (FsPath × Nat)) (stat : FsPath → Nat) (p : FsPath) : Bool :=
  match mtFind prevMt p with
  | none => true
  | some v => stat p > v

/-- Model of `Snapshot.updated`: production paths of `now` that are new or strictly
newer contribute their dependent tests; test paths of `now` that are new or
strictly newer are modified tests.  `stat` is the stat function at diff time
(in `test_modules_to_run` it is the one `now` was just captured with). -/
def Snapshot.updated (prev now : Snapshot) (stat : FsPath → Nat) : Analysis :=
  { mod_pp := (now.pp.filter (fun p => isModified prev.mt stat p)).map
      (fun p => (p, productionToTest now p))
    mod_tt := now.tt.filter (fun t => isModified prev.mt stat t) }

/-- The first `Dir.test_modules_to_run` after construction: the previous
snapshot is the seeded one over empty test and production sets, the fresh
snapshot discovers the current test and production modules. -/
def firstTestModulesToRun (entries : List FsEntry) (ignP ignM : List String)
    (dir : FsPath) (mtf : FsPath → Nat) (depsOf : FsPath → List FsPath)
    (sm : List (MapKey × List FsPath)) : Analysis :=
  Snapshot.updated
    (mkSnapshot mtf [] [] depsOf [])
    (mkSnapshot mtf (testModulePaths entries ignP ignM dir)
      (productionModulePaths entries ignP ignM dir) depsOf sm)
    mtf

/-- The outcome of the subprocess run of one test module. -/
inductive RunOutcome where
  | timeout
  | completed (stdout stderr : List Char)

/-- The timeout error text of `run_test_module` (four spaces, then the
message). -/
def timeoutMsg : List Char :=
  "    test run".toList ++ [apostC] ++ "s timeout expired".toList

/-- The stderr error text of `run_test_module`: strip stderr, split into
lines, indent every line by four spaces. -/
def indentErr (serr : List Char) : List Char :=
  "    ".toList ++ pyJoin (nlChar :: "    ".toList) (splitOnChar nlChar (pyStrip serr))

/-- The record-splitting step of `run_test_module`: split stdout on the
newline-brace sentinel and re-prepend the brace to every piece after the
first. -/
def splitRecords (stdout : List Char) : List (List Char) :=
  match splitNLBrace stdout with
  | [] => []
  | p :: ps => p :: ps.map (fun s => lbraceC :: s)

/-- The path of the test module relative to the root package, as used for
error-map keys. -/
def relModStr (root tm : FsPath) : List Char :=
  removePref (pathStrChars root) (pathStrChars tm)

/-- Model of `Dir.run_test_module`: on timeout an error entry with the timeout text;
on non-empty stderr an error entry with the indented stderr; on empty stdout
nothing; else the split records. -/
def runTestModule (root tm : FsPath) (outcome : RunOutcome) :
    List (List Char) × List (List Char × List Char) :=
  match outcome with
  | .timeout => ([], [(relModStr root tm, timeoutMsg)])
  | .completed sout serr =>
    if serr ≠ [] then ([], [(relModStr root tm, indentErr serr)])
    else if sout = [] then ([], [])
    else (splitRecords sout, [])

/-- Characters the reporter may interpolate raw into a JSON string literal
(suite and test names are inserted without any escaping by
`reporting.TDD.print`): no quote, no backslash, no newline. -/
def jsonStrOk (s : List Char) : Prop :=
  ∀ c ∈ s, c ≠ quoteC ∧ c ≠ backslashC ∧ c ≠ nlChar

/-- Whether the two-character split sentinel of the dispatcher — a newline
immediately followed by an opening brace — occurs in the string. -/
def hasNLBrace : List Char → Bool
  | [] => false
  | [_] => false
  | c :: d :: rest => (c == nlChar && d == lbraceC) || hasNLBrace (d :: rest)

/-- Model of the output of the quote-escaping applied to one log line by
`reporting.TDD.print` (quotes are replaced by backslash-quote; the line
itself is newline-free, since log messages were split on newlines; other
characters must be safe for the emitted line to be a JSON string literal). -/
inductive EscContent : List Char → Prop where
  | nil : EscContent []
  | chr (c : Char) (s : List Char) : c ≠ quoteC → c ≠ backslashC → c ≠ nlChar →
      EscContent s → EscContent (c :: s)
  | esc (s : List Char) : EscContent s → EscContent (backslashC :: quoteC :: s)

/-- A quoted string as the reporter formats it: quote, content, quote. -/
def jsonQuote (s : List Char) : List Char := quoteC :: (s ++ [quoteC])

/-- Model of the suite line of `reporting.TDD.print`: two spaces, the quoted
key `test_suite`, colon, space, the quoted suite name. -/
def tddSuiteMember (suite : List Char) : List Char :=
  spaceC :: spaceC ::
    (jsonQuote ("test_suite".toList) ++ (colonC :: spaceC :: jsonQuote suite))

/-- Model of a count line of `reporting.TDD.print`: two spaces, a quoted
key, colon, space, the decimal digits. -/
def tddCountMember (key cnt : List Char) : List Char :=
  spaceC :: spaceC :: (jsonQuote key ++ (colonC :: spaceC :: cnt))

/-- Model of one failed-test line: four spaces and the quoted test name. -/
def tddFailsItem (t : List Char) : List Char :=
  spaceC :: spaceC :: spaceC :: spaceC :: jsonQuote t

/-- Model of the fails member of `reporting.TDD.print`: two spaces, the
quoted key `fails`, colon, space, an opening bracket, then on following
lines the comma-newline-joined failed-test lines, a newline and the
two-space-indented closing bracket. -/
def tddFailsMember (fails : List (List Char)) : List Char :=
  spaceC :: spaceC :: (jsonQuote ("fails".toList) ++
    (colonC :: spaceC :: lbrackC :: nlChar ::
      (pyJoin [commaC, nlChar] (fails.map tddFailsItem) ++
        (nlChar :: spaceC :: spaceC :: [rbrackC]))))

/-- Model of one log entry of `reporting.TDD.print`: four spaces, the quoted
test name, colon, space, an opening bracket, then six-space-indented quoted
log lines joined by comma, newline and six spaces, a newline and the
four-space-indented closing bracket. -/
def tddLogEntry (name : List Char) (lines : List (List Char)) : List Char :=
  spaceC :: spaceC :: spaceC :: spaceC :: (jsonQuote name ++
    (colonC :: spaceC :: lbrackC :: nlChar ::
      spaceC :: spaceC :: spaceC :: spaceC :: spaceC :: spaceC ::
      (pyJoin (commaC :: nlChar :: [spaceC, spaceC, spaceC, spaceC, spaceC, spaceC])
          (lines.map jsonQuote) ++
        (nlChar :: spaceC :: spaceC :: spaceC :: spaceC :: [rbrackC]))))

/-- Model of the test-logs member of `reporting.TDD.print`: two spaces, the
quoted key `test_logs`, colon, space, an opening brace, then the
comma-newline-joined log entries, a newline and the two-space-indented
closing brace. -/
def tddLogsMember (logs : List (List Char × List (List Char))) : List Char :=
  spaceC :: spaceC :: (jsonQuote ("test_logs".toList) ++
    (colonC :: spaceC :: lbraceC :: nlChar ::
      (pyJoin [commaC, nlChar] (logs.map (fun e => tddLogEntry e.1 e.2)) ++
        (nlChar :: spaceC :: spaceC :: [rbraceC]))))

/-- The member lines of one reported object, in the fixed order of
`reporting.TDD.print`: suite, test count, fails count, fails array, and the
test-logs object exactly when at least one test logged. -/
def tddMembers (suite tc fc : List Char) (fails : List (List Char))
    (logs : List (List Char × List (List Char))) : List (List Char) :=
  [tddSuiteMember suite, tddCountMember ("tests_count".toList) tc,
   tddCountMember ("fails_count".toList) fc, tddFailsMember fails] ++
  (if logs = [] then [] else [tddLogsMember logs])

/-- One JSON object as `reporting.TDD.print` writes it: an opening brace on
its own line, the comma-newline-joined members, a newline and the closing
brace.  This is the exact multi-line shape of the format string of the
source; the newline `print` appends afterwards is handled by
`IsReportJsonObject`. -/
def tddObject (suite tc fc : List Char) (fails : List (List Char))
    (logs : List (List Char × List (List Char))) : List Char :=
  lbraceC :: nlChar ::
    (pyJoin [commaC, nlChar] (tddMembers suite tc fc fails logs) ++
      (nlChar :: [rbraceC]))

/-- Well-formed report data: raw-interpolated names are JSON-safe, the
counts are decimal digit strings (`str` of a nonnegative int), every log
entry has at least one line and each line is quote-escaped content.  Under
these conditions the emitted object is valid JSON. -/
def ReportDataOk (suite tc fc : List Char) (fails : List (List Char))
    (logs : List (List Char × List (List Char))) : Prop :=
  jsonStrOk suite ∧
  (tc ≠ [] ∧ ∀ c ∈ tc, c.isDigit) ∧ (fc ≠ [] ∧ ∀ c ∈ fc, c.isDigit) ∧
  (∀ t ∈ fails, jsonStrOk t) ∧
  (∀ e ∈ logs, jsonStrOk e.1 ∧ e.2 ≠ [] ∧ ∀ l ∈ e.2, EscContent l)

/-- A string that is one single JSON object as the structured-output
protocol (`--report=json`, `reporting.TDD.print`) emits it, for some
well-formed report data — optionally carrying the trailing newline that
`print` appends, which in a stream of several suites travels with the last
piece of the dispatcher split. -/
def IsReportJsonObject (s : List Char) : Prop :=
  ∃ suite tc fc fails logs, ReportDataOk suite tc fc fails logs ∧
    (s = tddObject suite tc fc fails logs ∨
     s = tddObject suite tc fc fails logs ++ [nlChar])

/-- A concrete reported object: suite `S`, one test, no fails, no logs. -/
def c5obj : List Char := tddObject ("S".toList) ("1".toList) ("0".toList) [] []

/-- Concrete tree for the first-cycle analysis: a watched package `pkg` with
one production module `x.py` and one test module `a_test.py`. -/
def c1entries : List FsEntry :=
  [(["pkg"], true), (["pkg", "__init__.py"], false),
   (["pkg", "x.py"], false), (["pkg", "a_test.py"], false)]

/-- The default ignored package basenames. -/
def ignP0 : List String := ["__pycache__"]

/-- The default ignored module basenames. -/
def ignM0 : List String := ["__init__.py"]

/-- A static mapping registered before the first cycle whose production side
resolves below the root package and whose test side does not exist, hence
stays verbatim. -/
def c1sm : List (MapKey × List FsPath) :=
  mapRegister c1entries (rootPackage c1entries ["pkg"]) [] ("x.py->y.txt".toList)

/-- The first analysis of the watched directory of `c1entries` with the
mapping `c1sm` registered; the test modules of the tree import nothing, so
the dependency generator returns empty lists. -/
def c1analysis : Analysis :=
  firstTestModulesToRun c1entries ignP0 ignM0 ["pkg"] (fun _ => 7) (fun _ => []) c1sm

/-- Concrete tree for the static-mapping registration: a watched package
`pkg` containing the production module `x.py`. -/
def c3entries : List FsEntry :=
  [(["pkg"], true), (["pkg", "__init__.py"], false), (["pkg", "x.py"], false)]

/-- Registration of `pkg/x.py->pkg/t.py`: the strings are given relative to
the working directory, not to the root package, so joining them below the
root package finds nothing and both sides stay verbatim — the production
side as a raw string key. -/
def c3sm : List (MapKey × List FsPath) :=
  mapRegister c3entries (rootPackage c3entries ["pkg"]) [] ("pkg/x.py->pkg/t.py".toList)

/-- A subsequent snapshot whose production set contains the verbatim
production path `pkg/x.py`. -/
def c3snap : Snapshot :=
  mkSnapshot (fun _ => 0) [] [["pkg", "x.py"]] (fun _ => []) c3sm

/-- Concrete tree for the import extractor: a test module doing a from-import
of two names from the aggregator `agg.py`, whose body is empty, so neither
name is found by the re-export search. -/
def c6entries : List FsEntry :=
  [(["r"], true), (["r", "__init__.py"], false),
   (["r", "agg.py"], false), (["r", "x_test.py"], false)]

/-- Parsed module contents of the `c6entries` tree. -/
def c6content : FsPath → List PyStmt := fun p =>
  if p = ["r", "x_test.py"] then [.importFrom (some ("r.agg")) ["n1", "n2"]] else []

/-- The aggregator path of the `c6entries` tree. -/
def c6agg : FsPath := ["r", "agg.py"]

/-- Tree for the amended extractor property: the aggregator re-exports `n1`
via a plain import resolvable next to it, while `n2` is not found. -/
def c6wEntries : List FsEntry :=
  [(["r"], true), (["r", "__init__.py"], false), (["r", "agg.py"], false),
   (["r", "n1.py"], false), (["r", "x_test.py"], false)]

/-- Parsed module contents of the `c6wEntries` tree. -/
def c6wContent : FsPath → List PyStmt := fun p =>
  if p = ["r", "x_test.py"] then [.importFrom (some ("r.agg")) ["n1", "n2"]]
  else if p = ["r", "agg.py"] then [.importPlain ["n1"]]
  else []

/-- Concrete cyclic re-export configuration: `a.py` re-exports `x` from
`b.py` and `b.py` re-exports `x` from `a.py`. -/
def c9entries : List FsEntry :=
  [(["r"], true), (["r", "__init__.py"], false), (["r", "a.py"], false),
   (["r", "b.py"], false), (["r", "x_test.py"], false)]

/-- Parsed module contents of the cyclic configuration. -/
def c9content : FsPath → List PyStmt := fun p =>
  if p = ["r", "a.py"] then [.importFrom (some ("r.b")) ["x"]]
  else if p = ["r", "b.py"] then [.importFrom (some ("r.a")) ["x"]]
  else []

/-- Acyclic variant: `a.py` re-exports `x` from `b.py`, whose body is
empty. -/
def c9wContent : FsPath → List PyStmt := fun p =>
  if p = ["r", "a.py"] then [.importFrom (some ("r.b")) ["x"]] else []

/-- A rank function witnessing the acyclicity of `c9wContent`. -/
def c9wRank : FsPath → Nat := fun m => if m = ["r", "a.py"] then 1 else 0

/-- Concrete tree for the snapshot no-op and disjointness properties: a
watched package with a nested sub-package, a production module and two test
modules. -/
def c2entries : List FsEntry :=
  [(["pkg"], true), (["pkg", "__init__.py"], false), (["pkg", "pm1.py"], false),
   (["pkg", "suffix_test.py"], false), (["pkg", "tests"], true),
   (["pkg", "tests", "__init__.py"], false), (["pkg", "tests", "test_prefix.py"], false)]

/-- Tree for the root-package property: the watched directory `a/b` whose
parent `a` is a package while the grandparent is not. -/
def c7entries : List FsEntry :=
  [(["a"], true), (["a", "__init__.py"], false), (["a", "b"], true),
   (["a", "b", "__init__.py"], false), (["a", "b", "m.py"], false)]

theorem rootPkgClimb_spec (entries : List FsEntry) :
    ∀ (fuel : Nat) (d : FsPath), d.length ≤ fuel → d ≠ [] →
    isPackage entries [] = false → isPackage entries d = true →
    (∃ t, rootPkgClimb entries fuel d ++ t = d) ∧
    isPackage entries (rootPkgClimb entries fuel d) = true ∧
    isPackage entries ((rootPkgClimb entries fuel d).dropLast) = false := by
  intro fuel
  induction fuel with
  | zero =>
    intro d hlen hne _ _
    cases d with
    | nil => exact absurd rfl hne
    | cons p ps => simp at hlen
  | succ fuel ih =>
    intro d hlen hne h0 hpkg
    rw [rootPkgClimb, if_neg hne]
    by_cases hd : isPackage entries d.dropLast = true
    · rw [if_pos hd]
      have hdne : d.dropLast ≠ [] := by
        intro hE
        rw [hE, h0] at hd
        exact Bool.false_ne_true hd
      have hlen' : d.dropLast.length ≤ fuel := by
        rw [List.length_dropLast]
        have : 1 ≤ d.length := List.length_pos.mpr hne
        omega
      obtain ⟨⟨t, ht⟩, h1, h2⟩ := ih d.dropLast hlen' hdne h0 hd
      refine ⟨⟨t ++ [d.getLast hne], ?_⟩, h1, h2⟩
      rw [← List.append_assoc, ht, List.dropLast_append_getLast]
    · rw [if_neg hd]
      exact ⟨⟨[], by simp⟩, hpkg, by simpa using hd⟩

/-- C7: for every watched directory that is itself a package (and on a
filesystem whose root is not a package, which is where the source would not
terminate), the computed root package is an ancestor-or-equal of the watched
directory, is itself a package, and its parent is not a package. -/
theorem claim_c7_root_package (entries : List FsEntry) (dir : FsPath)
    (hne : dir ≠ []) (h0 : isPackage entries [] = false)
    (hpkg : isPackage entries dir = true) :
    (∃ t, rootPackage entries dir ++ t = dir) ∧
    isPackage entries (rootPackage entries dir) = true ∧
    isPackage entries ((rootPackage entries dir).dropLast) = false :=
  rootPkgClimb_spec entries dir.length dir le_rfl hne h0 hpkg

theorem claim_c7_witness :
    ((["a", "b"] : FsPath) ≠ [] ∧ isPackage c7entries [] = false ∧
      isPackage c7entries ["a", "b"] = true) ∧
    ((∃ t, rootPackage c7entries ["a", "b"] ++ t = ["a", "b"]) ∧
      isPackage c7entries (rootPackage c7entries ["a", "b"]) = true ∧
      isPackage c7entries ((rootPackage c7entries ["a", "b"]).dropLast) = false) :=
  ⟨⟨by decide, by decide, by decide⟩,
    claim_c7_root_package c7entries ["a", "b"] (by decide) (by decide) (by decide)⟩

theorem mem_testModulePaths_isTest (entries : List FsEntry) (ignP ignM : List String)
    (dir : FsPath) (p : FsPath) (h : p ∈ testModulePaths entries ignP ignM dir) :
    isTestModule ignM p = true := by
  simp only [testModulePaths, List.mem_flatMap, List.mem_filter] at h
  obtain ⟨pk, _, _, hpred⟩ := h
  exact (Bool.and_eq_true _ _ |>.mp hpred).2

theorem mem_productionModulePaths_isProd (entries : List FsEntry) (ignP ignM : List String)
    (dir : FsPath) (p : FsPath) (h : p ∈ productionModulePaths entries ignP ignM dir) :
    isProduction entries ignM p = true := by
  simp only [productionModulePaths, List.mem_append, List.mem_flatMap,
    List.mem_filter] at h
  rcases h with ⟨pk, _, _, hpred⟩ | h
  · exact hpred
  · by_cases hr : rootPackage entries dir ≠ dir
    · rw [if_pos hr] at h
      exact (List.mem_filter.mp h).2
    · rw [if_neg hr] at h
      exact absurd h (List.not_mem_nil p)

/-- C8: in any one snapshot of a watched directory, no path yielded by
`test_modules` is also yielded by `production_modules`: a production module
is by definition not a test module. -/
theorem claim_c8_disjoint (entries : List FsEntry) (ignP ignM : List String)
    (dir : FsPath) (p : FsPath) (h : p ∈ testModulePaths entries ignP ignM dir) :
    p ∉ productionModulePaths entries ignP ignM dir := by
  intro hp
  have h1 : isTestModule ignM p = true :=
    mem_testModulePaths_isTest entries ignP ignM dir p h
  have h2 : isProduction entries ignM p = true :=
    mem_productionModulePaths_isProd entries ignP ignM dir p hp
  simp [isProduction, h1] at h2

theorem claim_c8_witness :
    (["pkg", "suffix_test.py"] : FsPath) ∈ testModulePaths c2entries ignP0 ignM0 ["pkg"] ∧
    (["pkg", "suffix_test.py"] : FsPath) ∉ productionModulePaths c2entries ignP0 ignM0 ["pkg"] :=
  ⟨by decide, claim_c8_disjoint c2entries ignP0 ignM0 ["pkg"] ["pkg", "suffix_test.py"] (by decide)⟩

theorem mtFind_map_of_mem (f : FsPath → Nat) :
    ∀ (l : List FsPath) (p : FsPath), p ∈ l →
    mtFind (l.map (fun q => (q, f q))) p = some (f p) := by
  intro l
  induction l with
  | nil => intro p hp; exact absurd hp (List.not_mem_nil p)
  | cons a l ih =>
    intro p hp
    by_cases h : a = p
    · subst h
      simp [mtFind, List.find?]
    · have hpl : p ∈ l := by
        rcases List.mem_cons.mp hp with h1 | h1
        · exact absurd h1.symm h
        · exact h1
      have hb : (a == p) = false := by simp [h]
      rw [List.map_cons, mtFind]
      simp only [List.find?_cons, hb]
      exact ih p hpl

/-- C2: two consecutive calls to `test_modules_to_run` over the same
discovered files: when no mtime strictly increases (equal mtimes included,
since the comparison is a strict greater-than at nanosecond resolution), the
second analysis has an empty to-run set. -/
theorem claim_c2_noop (entries : List FsEntry) (ignP ignM : List String) (dir : FsPath)
    (mt1 mt2 : FsPath → Nat) (depsOf : FsPath → List FsPath)
    (sm : List (MapKey × List FsPath))
    (h : ∀ p ∈ (testModulePaths entries ignP ignM dir ++
      productionModulePaths entries ignP ignM dir), mt2 p ≤ mt1 p) :
    (Snapshot.updated
      (mkSnapshot mt1 (testModulePaths entries ignP ignM dir)
        (productionModulePaths entries ignP ignM dir) depsOf sm)
      (mkSnapshot mt2 (testModulePaths entries ignP ignM dir)
        (productionModulePaths entries ignP ignM dir) depsOf sm)
      mt2).toRun = [] := by
  have key : ∀ p ∈ (testModulePaths entries ignP ignM dir ++
      productionModulePaths entries ignP ignM dir),
      isModified ((testModulePaths entries ignP ignM dir ++
        productionModulePaths entries ignP ignM dir).map (fun q => (q, mt1 q)))
        mt2 p = false := by
    intro p hp
    unfold isModified
    rw [mtFind_map_of_mem mt1 _ p hp]
    exact decide_eq_false (Nat.not_lt.mpr (h p hp))
  have h1 : List.filter
      (isModified ((testModulePaths entries ignP ignM dir ++
        productionModulePaths entries ignP ignM dir).map (fun q => (q, mt1 q))) mt2)
      (testModulePaths entries ignP ignM dir) = [] := by
    rw [List.filter_eq_nil_iff]
    intro p hp hmod
    rw [key p (List.mem_append_left _ hp)] at hmod
    exact Bool.false_ne_true hmod
  have h2 : List.filter
      (isModified ((testModulePaths entries ignP ignM dir ++
        productionModulePaths entries ignP ignM dir).map (fun q => (q, mt1 q))) mt2)
      (productionModulePaths entries ignP ignM dir) = [] := by
    rw [List.filter_eq_nil_iff]
    intro p hp hmod
    rw [key p (List.mem_append_right _ hp)] at hmod
    exact Bool.false_ne_true hmod
  simp only [Snapshot.updated, Analysis.toRun, mkSnapshot] at h1 h2 ⊢
  rw [h1, h2]
  simp

theorem claim_c2_witness :
    (∀ p ∈ (testModulePaths c2entries ignP0 ignM0 ["pkg"] ++
      productionModulePaths c2entries ignP0 ignM0 ["pkg"]),
      (fun (_ : FsPath) => 7) p ≤ (fun (_ : FsPath) => 7) p) ∧
    (Snapshot.updated
      (mkSnapshot (fun _ => 7) (testModulePaths c2entries ignP0 ignM0 ["pkg"])
        (productionModulePaths c2entries ignP0 ignM0 ["pkg"]) (fun _ => []) [])
      (mkSnapshot (fun _ => 7) (testModulePaths c2entries ignP0 ignM0 ["pkg"])
        (productionModulePaths c2entries ignP0 ignM0 ["pkg"]) (fun _ => []) [])
      (fun _ => 7)).toRun = [] :=
  ⟨fun _ _ => le_refl 7,
    claim_c2_noop c2entries ignP0 ignM0 ["pkg"] (fun _ => 7) (fun _ => 7)
      (fun _ => []) [] (fun _ _ => le_refl 7)⟩

/-- C4: `run_test_module` error handling.  On timeout: no records and one
error entry, keyed by the path relative to the root package, whose value is
four spaces followed by the timeout message.  On non-empty stderr: no
records and one error entry whose value is the stripped stderr with every
line indented four spaces.  On empty stdout and empty stderr: no records and
no error. -/
theorem claim_c4_errors (root tm : FsPath) (sout serr : List Char) :
    runTestModule root tm .timeout = ([], [(relModStr root tm, timeoutMsg)]) ∧
    (serr ≠ [] → runTestModule root tm (.completed sout serr) =
      ([], [(relModStr root tm, indentErr serr)])) ∧
    runTestModule root tm (.completed [] []) = ([], []) := by
  refine ⟨rfl, fun h => ?_, by simp [runTestModule]⟩
  simp [runTestModule, h]

theorem claim_c4_witness :
    ("boom".toList ≠ ([] : List Char)) ∧
    runTestModule ["r"] ["r", "a_test.py"] (.completed ("x".toList) ("boom".toList)) =
      ([], [(relModStr ["r"] ["r", "a_test.py"], indentErr ("boom".toList))]) :=
  ⟨by decide,
    (claim_c4_errors ["r"] ["r", "a_test.py"] ("x".toList) ("boom".toList)).2.1 (by decide)⟩

theorem toRun_updated_mem (prev now : Snapshot) (stat : FsPath → Nat) (x : FsPath) :
    x ∈ (Snapshot.updated prev now stat).toRun ↔
      (x ∈ now.tt ∧ isModified prev.mt stat x = true) ∨
      ∃ p, p ∈ now.pp ∧ isModified prev.mt stat p = true ∧
        x ∈ productionToTest now p := by
  simp only [Snapshot.updated, Analysis.toRun, List.mem_append, List.mem_filter,
    List.mem_flatMap, List.mem_map]
  constructor
  · rintro (⟨h1, h2⟩ | ⟨pe, ⟨p, ⟨hp, hmod⟩, rfl⟩, hx⟩)
    · exact Or.inl ⟨h1, h2⟩
    · exact Or.inr ⟨p, hp, hmod, hx⟩
  · rintro (⟨h1, h2⟩ | ⟨p, hp, hmod, hx⟩)
    · exact Or.inl ⟨h1, h2⟩
    · exact Or.inr ⟨(p, productionToTest now p), ⟨p, ⟨hp, hmod⟩, rfl⟩, hx⟩

theorem prodToTest_sub (mtf : FsPath → Nat) (tt pp : List FsPath)
    (depsOf : FsPath → List FsPath) (sm : List (MapKey × List FsPath)) (p x : FsPath)
    (h : x ∈ productionToTest (mkSnapshot mtf tt pp depsOf sm) p) :
    x ∈ tt ∨ (p ∈ pp ∧ ∃ kv ∈ sm, kv.1 = MapKey.path p ∧ x ∈ kv.2) := by
  simp only [productionToTest, mkSnapshot, List.mem_append] at h
  rcases h with h | h
  · left
    rcases List.mem_map.mp h with ⟨td, htd, rfl⟩
    have h1 := (List.mem_filter.mp htd).1
    rcases List.mem_map.mp h1 with ⟨t, ht, heq⟩
    cases heq
    exact ht
  · by_cases hpp : p ∈ pp
    · rw [if_pos hpp] at h
      refine Or.inr ⟨hpp, ?_⟩
      rcases List.mem_flatMap.mp h with ⟨kv, hkv, hx⟩
      have h1 := List.mem_filter.mp hkv
      exact ⟨kv, h1.1, by simpa using h1.2, hx⟩
    · rw [if_neg hpp] at h
      exact absurd h (List.not_mem_nil x)

theorem prodToTest_static (mtf : FsPath → Nat) (tt pp : List FsPath)
    (depsOf : FsPath → List FsPath) (sm : List (MapKey × List FsPath)) (p x : FsPath)
    (hpp : p ∈ pp) (h : ∃ kv ∈ sm, kv.1 = MapKey.path p ∧ x ∈ kv.2) :
    x ∈ productionToTest (mkSnapshot mtf tt pp depsOf sm) p := by
  simp only [productionToTest, mkSnapshot]
  apply List.mem_append_right
  rw [if_pos hpp]
  rcases h with ⟨kv, hkv, hkey, hx⟩
  exact List.mem_flatMap.mpr ⟨kv, List.mem_filter.mpr ⟨hkv, by simp [hkey]⟩, hx⟩

/-- C1, amended: the to-run set of the first analysis is exactly
`test_modules()` united with the targets of registered static mappings whose
path-resolved production side is in the discovered production set; with no
static mappings registered it is exactly `test_modules()`.  (The claim as
frozen omits the static-mapping contribution; see the counterexample.) -/
theorem claim_c1_first_run (entries : List FsEntry) (ignP ignM : List String)
    (dir : FsPath) (mtf : FsPath → Nat) (depsOf : FsPath → List FsPath)
    (sm : List (MapKey × List FsPath)) (x : FsPath) :
    x ∈ (firstTestModulesToRun entries ignP ignM dir mtf depsOf sm).toRun ↔
      (x ∈ testModulePaths entries ignP ignM dir ∨
       ∃ p ∈ productionModulePaths entries ignP ignM dir,
         ∃ kv ∈ sm, kv.1 = MapKey.path p ∧ x ∈ kv.2) := by
  rw [firstTestModulesToRun, toRun_updated_mem]
  constructor
  · rintro (⟨h1, _⟩ | ⟨p, hp, _, hx⟩)
    · left
      simpa [mkSnapshot] using h1
    · have hp' : p ∈ productionModulePaths entries ignP ignM dir := by
        simpa [mkSnapshot] using hp
      rcases prodToTest_sub mtf _ _ depsOf sm p x hx with h | ⟨_, hkv⟩
      · exact Or.inl h
      · exact Or.inr ⟨p, hp', hkv⟩
  · rintro (hx | ⟨p, hp, hkv⟩)
    · exact Or.inl ⟨by simpa [mkSnapshot] using hx, rfl⟩
    · refine Or.inr ⟨p, by simpa [mkSnapshot] using hp, rfl, ?_⟩
      exact prodToTest_static mtf _ _ depsOf sm p x (by simpa [mkSnapshot] using hp) hkv

/-- C1, counterexample to the claim as frozen: with the static mapping
`x.py->y.txt` registered before the first cycle, the first to-run set
contains `y.txt`, which `test_modules()` does not yield — so the first
to-run set is not equal to the set of discovered test modules. -/
theorem claim_c1_counterexample :
    (["y.txt"] : FsPath) ∈ c1analysis.toRun ∧
    (["y.txt"] : FsPath) ∉ testModulePaths c1entries ignP0 ignM0 ["pkg"] := by
  decide

theorem staticFor_assocAppend_self (sm : List (MapKey × List FsPath)) (k : MapKey)
    (v : FsPath) : v ∈ staticFor (assocAppend sm k v) k := by
  unfold assocAppend
  by_cases h : sm.any (fun kv => kv.1 == k)
  · rw [if_pos h]
    rcases List.any_eq_true.mp h with ⟨kv, hkv, hk⟩
    apply List.mem_flatMap.mpr
    refine ⟨(kv.1, kv.2 ++ [v]), ?_, List.mem_append_right _ (List.mem_singleton.mpr rfl)⟩
    apply List.mem_filter.mpr
    constructor
    · apply List.mem_map.mpr
      exact ⟨kv, hkv, by rw [if_pos hk]⟩
    · exact hk
  · rw [if_neg h]
    unfold staticFor
    rw [List.filter_append, List.flatMap_append]
    apply List.mem_append_right
    simp

theorem staticFor_mono (sm : List (MapKey × List FsPath)) (k k' : MapKey) (v : FsPath)
    (x : FsPath) (hx : x ∈ staticFor sm k') : x ∈ staticFor (assocAppend sm k v) k' := by
  rcases List.mem_flatMap.mp hx with ⟨kv, hkv, hxkv⟩
  have h1 := List.mem_filter.mp hkv
  unfold assocAppend
  by_cases h : sm.any (fun kv => kv.1 == k)
  · rw [if_pos h]
    apply List.mem_flatMap.mpr
    by_cases hk : (kv.1 == k) = true
    · refine ⟨(kv.1, kv.2 ++ [v]), ?_, List.mem_append_left _ hxkv⟩
      apply List.mem_filter.mpr
      refine ⟨?_, h1.2⟩
      apply List.mem_map.mpr
      exact ⟨kv, h1.1, by rw [if_pos hk]⟩
    · refine ⟨kv, ?_, hxkv⟩
      apply List.mem_filter.mpr
      refine ⟨?_, h1.2⟩
      apply List.mem_map.mpr
      exact ⟨kv, h1.1, by rw [if_neg hk]⟩
  · rw [if_neg h]
    unfold staticFor
    rw [List.filter_append, List.flatMap_append]
    exact List.mem_append_left _ hx

/-- C3, amended: when the production side of a registered mapping exists
below the root package at registration time (so that `Dir.map` resolves it
to a `Path` key), every snapshot whose production set contains the resolved
path returns a `production_to_test` set that contains the registered test
path and everything it would contain without the mapping.  (When the
production side does not resolve, the mapping is stored under a raw-string
key and never matches the production set: see the counterexample.  The
growth also need not be strict when the target is already a dependent.) -/
theorem claim_c3_static_mapping (entries : List FsEntry) (root : FsPath)
    (sm : List (MapKey × List FsPath)) (s pcs tcs : List Char)
    (tt pp : List FsPath) (mtf : FsPath → Nat) (depsOf : FsPath → List FsPath)
    (hsplit : splitArrow s = some (pcs, tcs))
    (hres : existsEntry entries (root ++ parseRelPath pcs) = true)
    (hpp : root ++ parseRelPath pcs ∈ pp) :
    (if existsEntry entries (root ++ parseRelPath tcs) then root ++ parseRelPath tcs
      else parseRelPath tcs) ∈
      productionToTest (mkSnapshot mtf tt pp depsOf (mapRegister entries root sm s))
        (root ++ parseRelPath pcs) ∧
    ∀ x ∈ productionToTest (mkSnapshot mtf tt pp depsOf sm) (root ++ parseRelPath pcs),
      x ∈ productionToTest (mkSnapshot mtf tt pp depsOf (mapRegister entries root sm s))
        (root ++ parseRelPath pcs) := by
  have hreg : mapRegister entries root sm s =
      assocAppend sm (MapKey.path (root ++ parseRelPath pcs))
        (if existsEntry entries (root ++ parseRelPath tcs) then root ++ parseRelPath tcs
         else parseRelPath tcs) := by
    rw [mapRegister, hsplit]
    simp [hres]
  constructor
  · simp only [productionToTest, mkSnapshot]
    apply List.mem_append_right
    rw [if_pos hpp, hreg]
    exact staticFor_assocAppend_self sm _ _
  · intro x hx
    simp only [productionToTest, mkSnapshot] at hx ⊢
    rcases List.mem_append.mp hx with h | h
    · exact List.mem_append_left _ h
    · apply List.mem_append_right
      rw [if_pos hpp] at h ⊢
      rw [hreg]
      exact staticFor_mono sm _ _ _ x h

/-- C3, counterexample to the claim as frozen: the mapping
`pkg/x.py->pkg/t.py` is registered with paths relative to the working
directory; joining them below the root package `pkg` finds nothing, so the
production side is kept verbatim — as a raw string key, which never matches
the production set of any snapshot.  A snapshot whose production set
contains the verbatim path `pkg/x.py` therefore does not return `pkg/t.py`
from `production_to_test`. -/
theorem claim_c3_counterexample :
    (["pkg", "x.py"] : FsPath) ∈ c3snap.pp ∧
    (["pkg", "t.py"] : FsPath) ∉ productionToTest c3snap ["pkg", "x.py"] := by
  decide

theorem claim_c3_witness :
    (splitArrow ("x.py->t.py".toList) = some ("x.py".toList, "t.py".toList) ∧
      existsEntry c3entries (["pkg"] ++ parseRelPath ("x.py".toList)) = true ∧
      ["pkg"] ++ parseRelPath ("x.py".toList) ∈ [(["pkg", "x.py"] : FsPath)]) ∧
    ((if existsEntry c3entries (["pkg"] ++ parseRelPath ("t.py".toList)) then
        ["pkg"] ++ parseRelPath ("t.py".toList)
      else parseRelPath ("t.py".toList)) ∈
      productionToTest
        (mkSnapshot (fun _ => 0) [] [["pkg", "x.py"]] (fun _ => [])
          (mapRegister c3entries ["pkg"] [] ("x.py->t.py".toList)))
        (["pkg"] ++ parseRelPath ("x.py".toList)) ∧
    ∀ x ∈ productionToTest (mkSnapshot (fun _ => 0) [] [["pkg", "x.py"]] (fun _ => []) [])
        (["pkg"] ++ parseRelPath ("x.py".toList)),
      x ∈ productionToTest
        (mkSnapshot (fun _ => 0) [] [["pkg", "x.py"]] (fun _ => [])
          (mapRegister c3entries ["pkg"] [] ("x.py->t.py".toList)))
        (["pkg"] ++ parseRelPath ("x.py".toList))) :=
  ⟨⟨by decide, by decide, by decide⟩,
    claim_c3_static_mapping c3entries ["pkg"] [] ("x.py->t.py".toList)
      ("x.py".toList) ("t.py".toList) [] [["pkg", "x.py"]] (fun _ => 0) (fun _ => [])
      (by decide) (by decide) (by decide)⟩

theorem splitNLBrace_ne_nil : ∀ s, splitNLBrace s ≠ [] := by
  intro s
  induction s using splitNLBrace.induct with
  | case1 => simp [splitNLBrace]
  | case2 c => simp [splitNLBrace]
  | case3 c d rest hcond ih =>
    rw [splitNLBrace, if_pos hcond]
    simp
  | case4 c d rest hcond hnil ih => exact absurd hnil ih
  | case5 c d rest hcond p ps hcons ih =>
    rw [splitNLBrace, if_neg hcond, hcons]
    simp

theorem pyJoin_cons_cons (sep : List Char) (c : Char) (p : List Char)
    (l : List (List Char)) : pyJoin sep ((c :: p) :: l) = c :: pyJoin sep (p :: l) := by
  cases l with
  | nil => rfl
  | cons q qs => simp [pyJoin]

theorem splitRecords_join : ∀ s, pyJoin [nlChar] (splitRecords s) = s := by
  intro s
  induction s using splitNLBrace.induct with
  | case1 => rfl
  | case2 c => rfl
  | case3 c d rest hcond ih =>
    obtain ⟨rfl, rfl⟩ := hcond
    cases h : splitNLBrace rest with
    | nil => exact absurd h (splitNLBrace_ne_nil rest)
    | cons p ps =>
      simp only [splitRecords, h] at ih
      rw [splitRecords, splitNLBrace, if_pos ⟨rfl, rfl⟩, h]
      simp only [List.map_cons]
      rw [pyJoin, pyJoin_cons_cons]
      rw [ih]
      rfl
  | case4 c d rest hcond hnil ih => exact absurd hnil (splitNLBrace_ne_nil (d :: rest))
  | case5 c d rest hcond p ps hcons ih =>
    simp only [splitRecords, hcons] at ih
    rw [splitRecords, splitNLBrace, if_neg hcond, hcons]
    rw [pyJoin_cons_cons]
    rw [ih]

/-- C10: the record-splitting step of `run_test_module` is lossless for
every stdout string: joining the returned record list with one newline
reconstructs stdout exactly (splitting consumed a newline-brace pair and
re-prepended only the brace). -/
theorem claim_c10_lossless (root tm : FsPath) (stdout : List Char) :
    pyJoin [nlChar] ((runTestModule root tm (.completed stdout [])).fst) = stdout := by
  by_cases h : stdout = []
  · subst h
    rfl
  · simp only [runTestModule, ne_eq, not_true_eq_false, if_false, if_neg h]
    exact splitRecords_join stdout

theorem nl_notmem_cons (c : Char) (l : List Char) (h1 : nlChar ≠ c)
    (h2 : nlChar ∉ l) : nlChar ∉ c :: l := by
  intro hm
  rcases List.mem_cons.mp hm with h | h
  · exact h1 h
  · exact h2 h

theorem nl_notmem_append (a b : List Char) (h1 : nlChar ∉ a) (h2 : nlChar ∉ b) :
    nlChar ∉ a ++ b := by
  intro hm
  rcases List.mem_append.mp hm with h | h
  · exact h1 h
  · exact h2 h

theorem nl_notmem_quote (s : List Char) (h : nlChar ∉ s) : nlChar ∉ jsonQuote s :=
  nl_notmem_cons _ _ (by decide) (nl_notmem_append _ _ h (by decide))

theorem jsonStrOk_no_nl (s : List Char) (h : jsonStrOk s) : nlChar ∉ s :=
  fun hm => (h nlChar hm).2.2 rfl

theorem escContent_no_nl (s : List Char) (h : EscContent s) : nlChar ∉ s := by
  induction h with
  | nil => exact List.not_mem_nil _
  | chr c s hq hb hn hs ih => exact nl_notmem_cons _ _ (fun he => hn he.symm) ih
  | esc s hs ih =>
    exact nl_notmem_cons _ _ (by decide) (nl_notmem_cons _ _ (by decide) ih)

theorem digits_no_nl (s : List Char) (h : ∀ c ∈ s, c.isDigit) : nlChar ∉ s :=
  fun hm => absurd (h nlChar hm) (by decide)

theorem hasNLBrace_tail (c : Char) (l : List Char)
    (h : hasNLBrace (c :: l) = false) : hasNLBrace l = false := by
  cases l with
  | nil => rfl
  | cons d rest =>
    rw [hasNLBrace] at h
    exact (Bool.or_eq_false_iff.mp h).2

theorem hasNLBrace_cons (c : Char) (l : List Char)
    (h1 : c = nlChar → l.head? ≠ some lbraceC) (h2 : hasNLBrace l = false) :
    hasNLBrace (c :: l) = false := by
  cases l with
  | nil => rfl
  | cons d rest =>
    rw [hasNLBrace, h2, Bool.or_false]
    by_cases hc : c = nlChar
    · have hd : d ≠ lbraceC := by
        intro he
        exact (h1 hc) (by simp [he])
      simp [hc, hd]
    · simp [hc]

theorem hasNLBrace_cons_ne (c : Char) (l : List Char) (h : c ≠ nlChar)
    (h2 : hasNLBrace l = false) : hasNLBrace (c :: l) = false :=
  hasNLBrace_cons c l (fun hc => absurd hc h) h2

theorem hasNLBrace_of_no_nl (s : List Char) (h : nlChar ∉ s) :
    hasNLBrace s = false := by
  induction s with
  | nil => rfl
  | cons c l ih =>
    apply hasNLBrace_cons
    · intro hc
      exfalso
      apply h
      rw [hc]
      exact List.mem_cons_self nlChar l
    · exact ih (fun hm => h (List.mem_cons_of_mem c hm))

theorem cons_head_ne_lb (c : Char) (l : List Char) (h : c ≠ lbraceC) :
    (c :: l).head? ≠ some lbraceC :=
  fun he => h (Option.some_inj.mp he)

theorem head_ne_lb_append (a b : List Char) (ha : a.head? ≠ some lbraceC)
    (hb : b.head? ≠ some lbraceC) : (a ++ b).head? ≠ some lbraceC := by
  cases a with
  | nil => exact hb
  | cons c l => exact ha

theorem pyJoin_head_ne_lb (sep : List Char) (pieces : List (List Char))
    (hs : sep.head? ≠ some lbraceC) (hp : ∀ p ∈ pieces, p.head? ≠ some lbraceC) :
    (pyJoin sep pieces).head? ≠ some lbraceC := by
  induction pieces with
  | nil => simp [pyJoin]
  | cons p ps ih =>
    cases ps with
    | nil => exact hp p (List.mem_cons_self _ _)
    | cons q qs =>
      rw [pyJoin]
      apply head_ne_lb_append
      · exact head_ne_lb_append p sep (hp p (List.mem_cons_self _ _)) hs
      · exact ih (fun r hr => hp r (List.mem_cons_of_mem _ hr))

theorem hasNLBrace_append (a b : List Char) (ha : hasNLBrace a = false)
    (hb : hasNLBrace b = false) (hh : b.head? ≠ some lbraceC) :
    hasNLBrace (a ++ b) = false := by
  induction a with
  | nil => exact hb
  | cons c l ih =>
    have hl : hasNLBrace l = false := hasNLBrace_tail c l ha
    apply hasNLBrace_cons
    · intro hc
      cases l with
      | nil => exact hh
      | cons d rest =>
        rw [hasNLBrace] at ha
        have h1 := (Bool.or_eq_false_iff.mp ha).1
        intro he
        have hd : d = lbraceC := by simpa using he
        rw [hc, hd] at h1
        simp at h1
    · exact ih hl

theorem hasNLBrace_pyJoin (sep : List Char) (pieces : List (List Char))
    (hsep : hasNLBrace sep = false) (hsh : sep.head? ≠ some lbraceC)
    (hp : ∀ p ∈ pieces, hasNLBrace p = false)
    (hph : ∀ p ∈ pieces, p.head? ≠ some lbraceC) :
    hasNLBrace (pyJoin sep pieces) = false := by
  induction pieces with
  | nil => rfl
  | cons p ps ih =>
    cases ps with
    | nil => exact hp p (List.mem_cons_self _ _)
    | cons q qs =>
      rw [pyJoin]
      apply hasNLBrace_append
      · apply hasNLBrace_append
        · exact hp p (List.mem_cons_self _ _)
        · exact hsep
        · exact hsh
      · exact ih (fun r hr => hp r (List.mem_cons_of_mem _ hr))
          (fun r hr => hph r (List.mem_cons_of_mem _ hr))
      · exact pyJoin_head_ne_lb sep (q :: qs) hsh
          (fun r hr => hph r (List.mem_cons_of_mem _ hr))

theorem splitNLBrace_cons_safe (c : Char) (l : List Char)
    (h : ¬(c = nlChar ∧ l.head? = some lbraceC)) :
    splitNLBrace (c :: l) =
      match splitNLBrace l with
      | [] => [[c]]
      | p :: ps => (c :: p) :: ps := by
  cases l with
  | nil => rfl
  | cons d rest =>
    rw [splitNLBrace, if_neg]
    rintro ⟨h1, h2⟩
    exact h ⟨h1, by simp [h2]⟩

theorem splitNLBrace_no_sentinel (s : List Char) (h : hasNLBrace s = false) :
    splitNLBrace s = [s] := by
  induction s with
  | nil => rfl
  | cons c l ih =>
    have hcond : ¬(c = nlChar ∧ l.head? = some lbraceC) := by
      rintro ⟨hc, hd⟩
      cases l with
      | nil => simp at hd
      | cons d rest =>
        rw [hasNLBrace] at h
        have h1 := (Bool.or_eq_false_iff.mp h).1
        have hd2 : d = lbraceC := by simpa using hd
        rw [hc, hd2] at h1
        simp at h1
    rw [splitNLBrace_cons_safe c l hcond, ih (hasNLBrace_tail c l h)]

theorem splitNLBrace_boundary (p s : List Char) (h : hasNLBrace p = false) :
    splitNLBrace (p ++ (nlChar :: lbraceC :: s)) = p :: splitNLBrace s := by
  induction p with
  | nil =>
    rw [List.nil_append, splitNLBrace, if_pos ⟨rfl, rfl⟩]
  | cons c p ih =>
    have hcond : ¬(c = nlChar ∧
        (p ++ (nlChar :: lbraceC :: s)).head? = some lbraceC) := by
      rintro ⟨hc, hd⟩
      cases p with
      | nil =>
        rw [List.nil_append] at hd
        have : nlChar = lbraceC := by simpa using hd
        exact absurd this (by decide)
      | cons d p2 =>
        have hd2 : d = lbraceC := by simpa using hd
        rw [hasNLBrace] at h
        have h1 := (Bool.or_eq_false_iff.mp h).1
        rw [hc, hd2] at h1
        simp at h1
    rw [List.cons_append, splitNLBrace_cons_safe _ _ hcond,
      ih (hasNLBrace_tail c p h)]

theorem pyJoin_ne_nil (sep : List Char) (o : List Char) (l : List (List Char))
    (ho : o ≠ []) : pyJoin sep (o :: l) ≠ [] := by
  cases l with
  | nil => exact ho
  | cons q qs => simp [pyJoin, ho]

theorem splitRecords_pyJoin : ∀ (objs : List (List Char)), objs ≠ [] →
    (∀ o ∈ objs, hasNLBrace o = false) →
    (∀ o ∈ objs.tail, ∃ t, o = lbraceC :: t) →
    splitRecords (pyJoin [nlChar] objs) = objs := by
  intro objs
  induction objs with
  | nil => intro h; exact absurd rfl h
  | cons o objs ih =>
    intro _ hsent hlb
    cases objs with
    | nil =>
      show splitRecords (pyJoin [nlChar] [o]) = [o]
      rw [show pyJoin [nlChar] [o] = o from rfl, splitRecords,
        splitNLBrace_no_sentinel o (hsent o (List.mem_cons_self o []))]
      rfl
    | cons o2 objs2 =>
      obtain ⟨t2, ht2⟩ := hlb o2 (List.mem_cons_self o2 objs2)
      have hY : pyJoin [nlChar] (o2 :: objs2) =
          lbraceC :: pyJoin [nlChar] (t2 :: objs2) := by
        rw [ht2, pyJoin_cons_cons]
      have hstep : pyJoin [nlChar] (o :: o2 :: objs2) =
          o ++ (nlChar :: lbraceC :: pyJoin [nlChar] (t2 :: objs2)) := by
        rw [pyJoin, hY]
        simp
      have htail : splitRecords (pyJoin [nlChar] (o2 :: objs2)) = o2 :: objs2 :=
        ih (by simp) (fun x hx => hsent x (List.mem_cons_of_mem _ hx))
          (fun x hx => hlb x (List.mem_cons_of_mem _ hx))
      rw [hstep, splitRecords,
        splitNLBrace_boundary o _ (hsent o (List.mem_cons_self _ _))]
      rw [hY] at htail
      cases hq : splitNLBrace (pyJoin [nlChar] (t2 :: objs2)) with
      | nil => exact absurd hq (splitNLBrace_ne_nil _)
      | cons q qs =>
        have hlbY : splitNLBrace (lbraceC :: pyJoin [nlChar] (t2 :: objs2)) =
            (lbraceC :: q) :: qs := by
          rw [splitNLBrace_cons_safe lbraceC _ (fun hc => absurd hc.1 (by decide)), hq]
        simp only [splitRecords, hlbY] at htail
        simp only [hq, List.map_cons]
        rw [htail]

theorem tddSuiteMember_no_nl (suite : List Char) (h : nlChar ∉ suite) :
    nlChar ∉ tddSuiteMember suite :=
  nl_notmem_cons _ _ (by decide) (nl_notmem_cons _ _ (by decide)
    (nl_notmem_append _ _ (nl_notmem_quote _ (by decide))
      (nl_notmem_cons _ _ (by decide)
        (nl_notmem_cons _ _ (by decide) (nl_notmem_quote _ h)))))

theorem tddCountMember_no_nl (key cnt : List Char) (hk : nlChar ∉ key)
    (hc : nlChar ∉ cnt) : nlChar ∉ tddCountMember key cnt :=
  nl_notmem_cons _ _ (by decide) (nl_notmem_cons _ _ (by decide)
    (nl_notmem_append _ _ (nl_notmem_quote _ hk)
      (nl_notmem_cons _ _ (by decide) (nl_notmem_cons _ _ (by decide) hc))))

theorem tddFailsItem_no_nl (t : List Char) (h : nlChar ∉ t) :
    nlChar ∉ tddFailsItem t :=
  nl_notmem_cons _ _ (by decide) (nl_notmem_cons _ _ (by decide)
    (nl_notmem_cons _ _ (by decide) (nl_notmem_cons _ _ (by decide)
      (nl_notmem_quote _ h))))

theorem tddFailsMember_sent (fails : List (List Char))
    (h : ∀ t ∈ fails, nlChar ∉ t) :
    hasNLBrace (tddFailsMember fails) = false := by
  apply hasNLBrace_cons_ne _ _ (by decide)
  apply hasNLBrace_cons_ne _ _ (by decide)
  apply hasNLBrace_append
  · exact hasNLBrace_of_no_nl _ (nl_notmem_quote _ (by decide))
  · apply hasNLBrace_cons_ne _ _ (by decide)
    apply hasNLBrace_cons_ne _ _ (by decide)
    apply hasNLBrace_cons_ne _ _ (by decide)
    apply hasNLBrace_cons
    · intro _
      apply head_ne_lb_append
      · apply pyJoin_head_ne_lb
        · exact cons_head_ne_lb _ _ (by decide)
        · intro p hp
          rcases List.mem_map.mp hp with ⟨t, _, rfl⟩
          exact cons_head_ne_lb _ _ (by decide)
      · exact cons_head_ne_lb _ _ (by decide)
    · apply hasNLBrace_append
      · apply hasNLBrace_pyJoin
        · decide
        · exact cons_head_ne_lb _ _ (by decide)
        · intro p hp
          rcases List.mem_map.mp hp with ⟨t, ht, rfl⟩
          exact hasNLBrace_of_no_nl _ (tddFailsItem_no_nl t (h t ht))
        · intro p hp
          rcases List.mem_map.mp hp with ⟨t, _, rfl⟩
          exact cons_head_ne_lb _ _ (by decide)
      · decide
      · exact cons_head_ne_lb _ _ (by decide)
  · exact cons_head_ne_lb _ _ (by decide)

theorem tddLogEntry_sent (name : List Char) (lines : List (List Char))
    (hn : nlChar ∉ name) (hl : ∀ l ∈ lines, nlChar ∉ l) :
    hasNLBrace (tddLogEntry name lines) = false := by
  apply hasNLBrace_cons_ne _ _ (by decide)
  apply hasNLBrace_cons_ne _ _ (by decide)
  apply hasNLBrace_cons_ne _ _ (by decide)
  apply hasNLBrace_cons_ne _ _ (by decide)
  apply hasNLBrace_append
  · exact hasNLBrace_of_no_nl _ (nl_notmem_quote _ hn)
  · apply hasNLBrace_cons_ne _ _ (by decide)
    apply hasNLBrace_cons_ne _ _ (by decide)
    apply hasNLBrace_cons_ne _ _ (by decide)
    apply hasNLBrace_cons
    · intro _
      exact cons_head_ne_lb _ _ (by decide)
    · apply hasNLBrace_cons_ne _ _ (by decide)
      apply hasNLBrace_cons_ne _ _ (by decide)
      apply hasNLBrace_cons_ne _ _ (by decide)
      apply hasNLBrace_cons_ne _ _ (by decide)
      apply hasNLBrace_cons_ne _ _ (by decide)
      apply hasNLBrace_cons_ne _ _ (by decide)
      apply hasNLBrace_append
      · apply hasNLBrace_pyJoin
        · decide
        · exact cons_head_ne_lb _ _ (by decide)
        · intro p hp
          rcases List.mem_map.mp hp with ⟨l2, hl2, rfl⟩
          exact hasNLBrace_of_no_nl _ (nl_notmem_quote _ (hl l2 hl2))
        · intro p hp
          rcases List.mem_map.mp hp with ⟨l2, _, rfl⟩
          exact cons_head_ne_lb _ _ (by decide)
      · decide
      · exact cons_head_ne_lb _ _ (by decide)
  · exact cons_head_ne_lb _ _ (by decide)

theorem tddLogsMember_sent (logs : List (List Char × List (List Char)))
    (h : ∀ e ∈ logs, nlChar ∉ e.1 ∧ ∀ l ∈ e.2, nlChar ∉ l) :
    hasNLBrace (tddLogsMember logs) = false := by
  apply hasNLBrace_cons_ne _ _ (by decide)
  apply hasNLBrace_cons_ne _ _ (by decide)
  apply hasNLBrace_append
  · exact hasNLBrace_of_no_nl _ (nl_notmem_quote _ (by decide))
  · apply hasNLBrace_cons_ne _ _ (by decide)
    apply hasNLBrace_cons_ne _ _ (by decide)
    apply hasNLBrace_cons_ne _ _ (by decide)
    apply hasNLBrace_cons
    · intro _
      apply head_ne_lb_append
      · apply pyJoin_head_ne_lb
        · exact cons_head_ne_lb _ _ (by decide)
        · intro p hp
          rcases List.mem_map.mp hp with ⟨e, _, rfl⟩
          exact cons_head_ne_lb _ _ (by decide)
      · exact cons_head_ne_lb _ _ (by decide)
    · apply hasNLBrace_append
      · apply hasNLBrace_pyJoin
        · decide
        · exact cons_head_ne_lb _ _ (by decide)
        · intro p hp
          rcases List.mem_map.mp hp with ⟨e, he, rfl⟩
          exact tddLogEntry_sent e.1 e.2 (h e he).1 (h e he).2
        · intro p hp
          rcases List.mem_map.mp hp with ⟨e, _, rfl⟩
          exact cons_head_ne_lb _ _ (by decide)
      · decide
      · exact cons_head_ne_lb _ _ (by decide)
  · exact cons_head_ne_lb _ _ (by decide)

theorem tddMembers_head (suite tc fc : List Char) (fails : List (List Char))
    (logs : List (List Char × List (List Char))) :
    ∀ p ∈ tddMembers suite tc fc fails logs, p.head? ≠ some lbraceC := by
  intro p hp
  rw [tddMembers] at hp
  rcases List.mem_append.mp hp with h4 | hif
  · simp only [List.mem_cons, List.not_mem_nil, or_false] at h4
    rcases h4 with rfl | rfl | rfl | rfl
    · exact cons_head_ne_lb _ _ (by decide)
    · exact cons_head_ne_lb _ _ (by decide)
    · exact cons_head_ne_lb _ _ (by decide)
    · exact cons_head_ne_lb _ _ (by decide)
  · by_cases hlogs : logs = []
    · rw [if_pos hlogs] at hif
      exact absurd hif (List.not_mem_nil p)
    · rw [if_neg hlogs] at hif
      rw [List.mem_singleton.mp hif]
      exact cons_head_ne_lb _ _ (by decide)

theorem tddObject_sent (suite tc fc : List Char) (fails : List (List Char))
    (logs : List (List Char × List (List Char)))
    (hsuite : nlChar ∉ suite) (htc : nlChar ∉ tc) (hfc : nlChar ∉ fc)
    (hfails : ∀ t ∈ fails, nlChar ∉ t)
    (hlogs : ∀ e ∈ logs, nlChar ∉ e.1 ∧ ∀ l ∈ e.2, nlChar ∉ l) :
    hasNLBrace (tddObject suite tc fc fails logs) = false := by
  have hmem : ∀ p ∈ tddMembers suite tc fc fails logs, hasNLBrace p = false := by
    intro p hp
    rw [tddMembers] at hp
    rcases List.mem_append.mp hp with h4 | hif
    · simp only [List.mem_cons, List.not_mem_nil, or_false] at h4
      rcases h4 with rfl | rfl | rfl | rfl
      · exact hasNLBrace_of_no_nl _ (tddSuiteMember_no_nl suite hsuite)
      · exact hasNLBrace_of_no_nl _ (tddCountMember_no_nl _ _ (by decide) htc)
      · exact hasNLBrace_of_no_nl _ (tddCountMember_no_nl _ _ (by decide) hfc)
      · exact tddFailsMember_sent fails hfails
    · by_cases hl : logs = []
      · rw [if_pos hl] at hif
        exact absurd hif (List.not_mem_nil p)
      · rw [if_neg hl] at hif
        rw [List.mem_singleton.mp hif]
        exact tddLogsMember_sent logs hlogs
  apply hasNLBrace_cons_ne _ _ (by decide)
  apply hasNLBrace_cons
  · intro _
    apply head_ne_lb_append
    · exact pyJoin_head_ne_lb _ _ (cons_head_ne_lb _ _ (by decide))
        (tddMembers_head suite tc fc fails logs)
    · exact cons_head_ne_lb _ _ (by decide)
  · apply hasNLBrace_append
    · exact hasNLBrace_pyJoin _ _ (by decide) (cons_head_ne_lb _ _ (by decide))
        hmem (tddMembers_head suite tc fc fails logs)
    · decide
    · exact cons_head_ne_lb _ _ (by decide)

theorem isReportJson_facts (s : List Char) (h : IsReportJsonObject s) :
    hasNLBrace s = false ∧ ∃ t, s = lbraceC :: t := by
  obtain ⟨suite, tc, fc, fails, logs, hok, hcase⟩ := h
  obtain ⟨h1, ⟨_, h2⟩, ⟨_, h3⟩, h4, h5⟩ := hok
  have hobj : hasNLBrace (tddObject suite tc fc fails logs) = false :=
    tddObject_sent suite tc fc fails logs (jsonStrOk_no_nl _ h1)
      (digits_no_nl _ h2) (digits_no_nl _ h3)
      (fun t ht => jsonStrOk_no_nl _ (h4 t ht))
      (fun e he => ⟨jsonStrOk_no_nl _ (h5 e he).1,
        fun l hl => escContent_no_nl _ ((h5 e he).2.2 l hl)⟩)
  rcases hcase with rfl | rfl
  · exact ⟨hobj, ⟨_, rfl⟩⟩
  · refine ⟨?_, ⟨_, rfl⟩⟩
    exact hasNLBrace_append _ _ hobj (by decide) (cons_head_ne_lb _ _ (by decide))

/-- C5: when stdout is a back-to-back concatenation of JSON objects as the
structured-output reporter (`--report=json`, `reporting.TDD.print`)
actually emits them — multi-line objects, one per suite, separated by a
newline immediately followed by an opening brace, the last optionally
carrying the trailing newline of `print` — `run_test_module` returns
exactly the list of those objects (splitting on the sentinel and
re-prepending the brace), and every returned element is a single reported
JSON object.  The split is safe because no line of an emitted object except
its first begins with an opening brace. -/
theorem claim_c5_dispatcher_split (root tm : FsPath) (objs : List (List Char))
    (hne : objs ≠ []) (hobj : ∀ o ∈ objs, IsReportJsonObject o) :
    (runTestModule root tm (.completed (pyJoin [nlChar] objs) [])).fst = objs ∧
    ∀ s ∈ (runTestModule root tm (.completed (pyJoin [nlChar] objs) [])).fst,
      IsReportJsonObject s := by
  have hsent : ∀ o ∈ objs, hasNLBrace o = false :=
    fun o ho => (isReportJson_facts o (hobj o ho)).1
  have hlb : ∀ o ∈ objs.tail, ∃ t, o = lbraceC :: t :=
    fun o ho => (isReportJson_facts o (hobj o (List.mem_of_mem_tail ho))).2
  have hsplit := splitRecords_pyJoin objs hne hsent hlb
  have hstdne : pyJoin [nlChar] objs ≠ [] := by
    cases objs with
    | nil => exact absurd rfl hne
    | cons o os =>
      obtain ⟨t, ht⟩ := (isReportJson_facts o (hobj o (List.mem_cons_self o os))).2
      apply pyJoin_ne_nil
      rw [ht]
      simp
  have hfst : (runTestModule root tm (.completed (pyJoin [nlChar] objs) [])).fst =
      objs := by
    simp only [runTestModule, ne_eq, not_true_eq_false, if_false, if_neg hstdne]
    exact hsplit
  exact ⟨hfst, fun s hs => by rw [hfst] at hs; exact hobj s hs⟩

theorem claim_c5_witness :
    (([c5obj, c5obj ++ [nlChar]] : List (List Char)) ≠ [] ∧
      ∀ o ∈ ([c5obj, c5obj ++ [nlChar]] : List (List Char)), IsReportJsonObject o) ∧
    ((runTestModule ["r"] ["r", "a_test.py"]
        (.completed (pyJoin [nlChar] [c5obj, c5obj ++ [nlChar]]) [])).fst =
      [c5obj, c5obj ++ [nlChar]] ∧
      ∀ s ∈ (runTestModule ["r"] ["r", "a_test.py"]
        (.completed (pyJoin [nlChar] [c5obj, c5obj ++ [nlChar]]) [])).fst,
        IsReportJsonObject s) := by
  have hok : ReportDataOk ("S".toList) ("1".toList) ("0".toList) [] [] :=
    ⟨by unfold jsonStrOk; decide, ⟨by decide, by decide⟩, ⟨by decide, by decide⟩,
      fun t ht => absurd ht (List.not_mem_nil t),
      fun e he => absurd he (List.not_mem_nil e)⟩
  have hobj : ∀ o ∈ ([c5obj, c5obj ++ [nlChar]] : List (List Char)),
      IsReportJsonObject o := by
    intro o ho
    simp only [List.mem_cons, List.not_mem_nil, or_false] at ho
    rcases ho with rfl | rfl
    · exact ⟨_, _, _, [], [], hok, Or.inl rfl⟩
    · exact ⟨_, _, _, [], [], hok, Or.inr rfl⟩
  exact ⟨⟨by simp, hobj⟩,
    claim_c5_dispatcher_split ["r"] ["r", "a_test.py"] [c5obj, c5obj ++ [nlChar]]
      (by simp) hobj⟩

theorem resolve_c9_none : ∀ fuel,
    resolveFromImport c9entries c9content ignP0 ["r"] ["r"] ["r", "x_test.py"] fuel
      (some ["r", "a.py"]) "x" = none ∧
    resolveFromImport c9entries c9content ignP0 ["r"] ["r"] ["r", "x_test.py"] fuel
      (some ["r", "b.py"]) "x" = none := by
  intro fuel
  induction fuel with
  | zero => exact ⟨rfl, rfl⟩
  | succ fuel ih =>
    constructor
    · have hstep :
          resolveFromImport c9entries c9content ignP0 ["r"] ["r"] ["r", "x_test.py"]
            (fuel + 1) (some ["r", "a.py"]) "x" =
          resolveFromImport c9entries c9content ignP0 ["r"] ["r"] ["r", "x_test.py"]
            fuel (some ["r", "b.py"]) "x" := rfl
      rw [hstep]
      exact ih.2
    · have hstep :
          resolveFromImport c9entries c9content ignP0 ["r"] ["r"] ["r", "x_test.py"]
            (fuel + 1) (some ["r", "b.py"]) "x" =
          resolveFromImport c9entries c9content ignP0 ["r"] ["r"] ["r", "x_test.py"]
            fuel (some ["r", "a.py"]) "x" := rfl
      rw [hstep]
      exact ih.1

/-- C9, counterexample to the claim as frozen: on the two-module re-export
cycle (`a.py` re-exports `x` from `b.py` and conversely),
`_resolve_from_import` never returns, whatever recursion depth is allowed —
the source recurses forever (until the recursion limit of the host). -/
theorem claim_c9_counterexample :
    ¬ rfiTerminates c9entries c9content ignP0 ["r"] ["r"] ["r", "x_test.py"]
      ["r", "a.py"] "x" := by
  rintro ⟨fuel, h⟩
  rw [(resolve_c9_none fuel).1] at h
  simp at h

theorem rfiScan_next (entries : List FsEntry) (ignP : List String) (root dir selfP : FsPath)
    (resolve : FsPath → Option (Option FsPath × Bool)) (m : FsPath) (imp : String) :
    ∀ stmts : List PyStmt,
      (rfiNextAux entries ignP root dir selfP m imp stmts = none →
        (rfiScan entries ignP root dir selfP resolve m imp stmts).isSome = true) ∧
      (∀ d, rfiNextAux entries ignP root dir selfP m imp stmts = some d →
        rfiScan entries ignP root dir selfP resolve m imp stmts = resolve d) := by
  intro stmts
  induction stmts with
  | nil =>
    refine ⟨fun _ => rfl, fun d h => ?_⟩
    simp [rfiNextAux] at h
  | cons stmt rest ih =>
    cases stmt with
    | other => exact ⟨fun h => ih.1 h, fun d h => ih.2 d h⟩
    | importPlain names =>
      by_cases hn : names.contains imp
      · cases himp : importToModule entries root selfP imp (some m) with
        | some d2 =>
          constructor
          · intro _
            simp only [rfiScan, hn, if_true, himp]
            rfl
          · intro d h
            simp only [rfiNextAux, hn, if_true, himp] at h
            exact Option.noConfusion h
        | none =>
          constructor
          · intro h
            simp only [rfiNextAux, hn, if_true, himp] at h
            simp only [rfiScan, hn, if_true, himp]
            exact ih.1 h
          · intro d h
            simp only [rfiNextAux, hn, if_true, himp] at h
            simp only [rfiScan, hn, if_true, himp]
            exact ih.2 d h
      · constructor
        · intro h
          simp only [rfiNextAux, hn, if_false] at h
          simp only [rfiScan, hn, if_false]
          exact ih.1 h
        · intro d h
          simp only [rfiNextAux, hn, if_false] at h
          simp only [rfiScan, hn, if_false]
          exact ih.2 d h
    | importFrom mo names =>
      cases mo with
      | none => exact ⟨fun h => ih.1 h, fun d h => ih.2 d h⟩
      | some ms =>
        cases himp : importToModule entries root selfP ms none with
        | some dep =>
          by_cases hn : names.contains imp
          · constructor
            · intro h
              simp only [rfiNextAux, himp, hn, if_true] at h
              exact Option.noConfusion h
            · intro d h
              simp only [rfiNextAux, himp, hn, if_true, Option.some.injEq] at h
              subst h
              simp only [rfiScan, himp, hn, if_true]
          · constructor
            · intro h
              simp only [rfiNextAux, himp, hn, if_false] at h
              simp only [rfiScan, himp, hn, if_false]
              exact ih.1 h
            · intro d h
              simp only [rfiNextAux, himp, hn, if_false] at h
              simp only [rfiScan, himp, hn, if_false]
              exact ih.2 d h
        | none =>
          by_cases hpkg : isPackageImport entries ignP root dir ms = true
          · by_cases hn : names.contains imp
            · constructor
              · intro h
                simp only [rfiScan, himp, hpkg, hn, if_true]
                cases himp2 : importToModule entries root selfP (ms ++ "." ++ imp) none with
                | some d2 => rfl
                | none => rfl
              · intro d h
                simp only [rfiNextAux, himp, hpkg, hn, if_true] at h
                exact Option.noConfusion h
            · constructor
              · intro h
                simp only [rfiNextAux, himp, hpkg, hn, if_true, if_false] at h
                simp only [rfiScan, himp, hpkg, hn, if_true, if_false]
                exact ih.1 h
              · intro d h
                simp only [rfiNextAux, himp, hpkg, hn, if_true, if_false] at h
                simp only [rfiScan, himp, hpkg, hn, if_true, if_false]
                exact ih.2 d h
          · have hpkg' : isPackageImport entries ignP root dir ms = false :=
              Bool.eq_false_iff.mpr hpkg
            constructor
            · intro h
              simp only [rfiNextAux, himp, hpkg', Bool.false_eq_true, if_false] at h
              simp only [rfiScan, himp, hpkg', Bool.false_eq_true, if_false]
              exact ih.1 h
            · intro d h
              simp only [rfiNextAux, himp, hpkg', Bool.false_eq_true, if_false] at h
              simp only [rfiScan, himp, hpkg', Bool.false_eq_true, if_false]
              exact ih.2 d h

/-- C9, amended: `_resolve_from_import` terminates on every configuration
whose resolution-step relation admits a decreasing rank (acyclic re-export
chains) — a recursion depth of the rank of the start module suffices.  On a
cyclic configuration it does not terminate: see the counterexample. -/
theorem claim_c9_termination (entries : List FsEntry) (content : FsPath → List PyStmt)
    (ignP : List String) (root dir selfP : FsPath) (imp : String) (rank : FsPath → Nat)
    (hrank : ∀ m d, rfiNext entries content ignP root dir selfP m imp = some d →
      rank d < rank m) :
    ∀ (fuel : Nat) (m : FsPath), rank m < fuel →
      (resolveFromImport entries content ignP root dir selfP fuel (some m) imp).isSome
        = true := by
  intro fuel
  induction fuel with
  | zero => intro m h; exact absurd h (Nat.not_lt_zero _)
  | succ fuel ih =>
    intro m hm
    show (rfiScan entries ignP root dir selfP
      (fun dep => resolveFromImport entries content ignP root dir selfP fuel (some dep) imp)
      m imp (content m)).isSome = true
    cases hnext : rfiNextAux entries ignP root dir selfP m imp (content m) with
    | none =>
      exact (rfiScan_next entries ignP root dir selfP _ m imp (content m)).1 hnext
    | some d =>
      rw [(rfiScan_next entries ignP root dir selfP _ m imp (content m)).2 d hnext]
      have hd : rank d < rank m := hrank m d hnext
      exact ih d (Nat.lt_of_lt_of_le hd (Nat.lt_succ_iff.mp hm))

theorem claim_c9_witness :
    (resolveFromImport c9entries c9wContent ignP0 ["r"] ["r"] ["r", "x_test.py"] 2
      (some ["r", "a.py"]) "x").isSome = true := by
  refine claim_c9_termination c9entries c9wContent ignP0 ["r"] ["r"] ["r", "x_test.py"]
    "x" c9wRank ?_ 2 ["r", "a.py"] (by decide)
  intro m d h
  by_cases hm : m = ["r", "a.py"]
  · subst hm
    have hv : rfiNext c9entries c9wContent ignP0 ["r"] ["r"] ["r", "x_test.py"]
        ["r", "a.py"] "x" = some ["r", "b.py"] := by decide
    rw [hv] at h
    cases h
    decide
  · have hc : c9wContent m = [] := by
      simp [c9wContent, hm]
    rw [rfiNext, hc] at h
    simp [rfiNextAux] at h

/-- C6, counterexample to the claim as frozen: one from-import of the two
names `n1, n2` from an aggregator in which the re-export search finds
neither; `production_dependencies` yields the aggregator once per unresolved
name — twice for this single from-import statement, not at most once. -/
theorem claim_c6_counterexample :
    productionDependencies c6entries c6content ignP0 (rootPackage c6entries ["r"]) ["r"]
      ["r", "x_test.py"] 3 = some [c6agg, c6agg] ∧
    ¬((([c6agg, c6agg] : List FsPath).count c6agg) ≤ 1) := by
  decide

theorem pdFromImportDep_count (entries : List FsEntry) (content : FsPath → List PyStmt)
    (ignP : List String) (root dir selfP : FsPath) (fuel : Nat) (dep : FsPath) :
    ∀ names : List String,
      (∀ n ∈ names,
        resolveFromImport entries content ignP root dir selfP fuel (some dep) n ≠ none) →
      (∀ n ∈ names,
        resolveFromImport entries content ignP root dir selfP fuel (some dep) n ≠
          some (some dep, true)) →
      ∃ l, pdFromImportDep entries content ignP root dir selfP fuel dep names = some l ∧
        l.count dep = names.countP
          (fun n => !(rfiFoundB entries content ignP root dir selfP fuel dep n)) := by
  intro names
  induction names with
  | nil =>
    intro _ _
    exact ⟨[], rfl, by simp⟩
  | cons n ns ih =>
    intro h1 h2
    obtain ⟨l, hl, hcount⟩ := ih (fun m hm => h1 m (List.mem_cons_of_mem _ hm))
      (fun m hm => h2 m (List.mem_cons_of_mem _ hm))
    cases hres : resolveFromImport entries content ignP root dir selfP fuel (some dep) n with
    | none => exact absurd hres (h1 n (List.mem_cons_self _ _))
    | some pr =>
      obtain ⟨dopt, found⟩ := pr
      cases found with
      | true =>
        refine ⟨dopt.toList ++ l, ?_, ?_⟩
        · simp [pdFromImportDep, hres, hl]
        · have hfb : rfiFoundB entries content ignP root dir selfP fuel dep n = true := by
            simp [rfiFoundB, hres]
          have hd0 : dopt.toList.count dep = 0 := by
            cases dopt with
            | none => rfl
            | some d =>
              have hne : d ≠ dep := by
                intro he
                subst he
                exact h2 n (List.mem_cons_self _ _) hres
              simp [Option.toList, List.count_cons, hne]
          rw [List.count_append, hd0, List.countP_cons, hcount, hfb]
          simp
      | false =>
        refine ⟨dep :: l, ?_, ?_⟩
        · simp [pdFromImportDep, hres, hl]
        · have hfb : rfiFoundB entries content ignP root dir selfP fuel dep n = false := by
            simp [rfiFoundB, hres]
          rw [List.count_cons_self, List.countP_cons, hcount, hfb]
          simp

/-- C6, amended: for a top-level from-import whose module resolves to an
aggregator file, `production_dependencies` yields the aggregator once per
name, among the ones a statement imports, that the re-export search does not find (so possibly several
times per from-import statement; the reverse index later deduplicates), in
addition to every successfully resolved re-export target. -/
theorem claim_c6_aggregator_per_name (entries : List FsEntry)
    (content : FsPath → List PyStmt) (ignP : List String) (root dir selfP : FsPath)
    (fuel : Nat) (ms : String) (names : List String) (dep : FsPath)
    (hc : content selfP = [PyStmt.importFrom (some ms) names])
    (hdep : importToModule entries root selfP ms none = some dep)
    (h1 : ∀ n ∈ names,
      resolveFromImport entries content ignP root dir selfP fuel (some dep) n ≠ none)
    (h2 : ∀ n ∈ names,
      resolveFromImport entries content ignP root dir selfP fuel (some dep) n ≠
        some (some dep, true)) :
    ∃ l, productionDependencies entries content ignP root dir selfP fuel = some l ∧
      l.count dep = names.countP
        (fun n => !(rfiFoundB entries content ignP root dir selfP fuel dep n)) := by
  obtain ⟨l, hl, hcount⟩ :=
    pdFromImportDep_count entries content ignP root dir selfP fuel dep names h1 h2
  refine ⟨l, ?_, hcount⟩
  rw [productionDependencies, hc]
  simp only [List.foldr, pdStmt, hdep, hl]
  simp

theorem claim_c6_witness :
    (c6wContent ["r", "x_test.py"] = [PyStmt.importFrom (some ("r.agg")) ["n1", "n2"]] ∧
      importToModule c6wEntries ["r"] ["r", "x_test.py"] ("r.agg") none =
        some ["r", "agg.py"] ∧
      (∀ n ∈ (["n1", "n2"] : List String),
        resolveFromImport c6wEntries c6wContent ignP0 ["r"] ["r"] ["r", "x_test.py"] 3
          (some ["r", "agg.py"]) n ≠ none) ∧
      (∀ n ∈ (["n1", "n2"] : List String),
        resolveFromImport c6wEntries c6wContent ignP0 ["r"] ["r"] ["r", "x_test.py"] 3
          (some ["r", "agg.py"]) n ≠ some (some ["r", "agg.py"], true))) ∧
    ∃ l, productionDependencies c6wEntries c6wContent ignP0 ["r"] ["r"]
        ["r", "x_test.py"] 3 = some l ∧
      l.count ["r", "agg.py"] = (["n1", "n2"] : List String).countP
        (fun n => !(rfiFoundB c6wEntries c6wContent ignP0 ["r"] ["r"] ["r", "x_test.py"]
          3 ["r", "agg.py"] n)) :=
  ⟨⟨by decide, by decide, by decide, by decide⟩,
    claim_c6_aggregator_per_name c6wEntries c6wContent ignP0 ["r"] ["r"]
      ["r", "x_test.py"] 3 ("r.agg") ["n1", "n2"] ["r", "agg.py"]
      (by decide) (by decide) (by decide) (by decide)⟩
